import Mathlib

/-!
Shallow embedding of the espeak-rs playback library (src/lib.rs) and proofs
about its stream cursor, parameter application, synthesis worker, voice
conversion and synthesis-callback event marshaling.

Machine integers are modelled as `Nat`/`Int`; the one place where 32-bit
overflow is reachable (the `u32` product `audio_position * sample_rate` in
`next_sample_and_events`) is modelled with an explicit `% 2^32`, matching
release-profile Rust wrapping semantics.
-/

namespace EspeakRs

/-- Landmark events, mirroring `pub enum Event` in src/lib.rs. -/
inductive Event where
  | Start : Event
  | Word : Nat → Nat → Event
  | Sentence : Nat → Event
  | End : Event
deriving DecidableEq

/-- One channel delivery from the synthesis worker: an audio chunk (i16
samples) together with its timestamped event batch, mirroring the channel
type `(Vec<i16>, Vec<(u32, Event)>)`. -/
abbrev Chunk := List Int × List (Nat × Event)

/-- State of `SpeakerSource` (src/lib.rs). The receiver `rx` is modelled as
the finite list of deliveries the worker will still send; an empty list means
`recv()` returns `Err` (channel closed, sender dropped). -/
structure SpeakerSource where
  rx : List Chunk
  sample_rate : Nat
  data : List Int
  events : List (Nat × Event)
  iter_index : Option Nat
deriving DecidableEq

/-- Sample index associated to an event timestamp: the Rust expression
`(audio_position * self.sample_rate / 1000) as usize` where both operands are
`u32`, so the product wraps modulo `2^32` (release profile). -/
def atSample (sample_rate audio_position : Nat) : Nat :=
  audio_position * sample_rate % 4294967296 / 1000

/-- Outcome of the receive loop `while i >= self.data.len() { ... rx.recv() }`:
either the buffer now covers index `i`, or `recv` returned `Err` (channel
closed) and the early return is taken. -/
inductive FillResult where
  | ok (rx : List Chunk) (data : List Int) (events : List (Nat × Event)) : FillResult
  | closed (data : List Int) (events : List (Nat × Event)) : FillResult
deriving DecidableEq

/-- The receive loop of `next_sample_and_events`: while the requested index is
not buffered, receive the next `(wav_vec, events_vec)` unit and append both. -/
def fill (i : Nat) : List Chunk → List Int → List (Nat × Event) → FillResult
  | [], data, events =>
      if i ≥ data.length then .closed data events else .ok [] data events
  | c :: rest, data, events =>
      if i ≥ data.length then fill i rest (data ++ c.1) (events ++ c.2)
      else .ok (c :: rest) data events

/-- The due-event loop of `next_sample_and_events`: pop events off the front
of the queue while the first event's sample index is not beyond `i`. -/
def dueSplit (sample_rate i : Nat) : List (Nat × Event) → List Event × List (Nat × Event)
  | [] => ([], [])
  | (audio_position, e) :: rest =>
      if atSample sample_rate audio_position > i then ([], (audio_position, e) :: rest)
      else
        let r := dueSplit sample_rate i rest
        (e :: r.1, r.2)

/-- Pull step `SpeakerSource::next_sample_and_events` (src/lib.rs lines 349-390),
returning the updated cursor state together with the optional sample and the
optional batch of due events. Note that the `Err` arm of `recv` returns
without modifying `iter_index`, exactly as the source does. -/
def next_sample_and_events (s : SpeakerSource) : SpeakerSource × Option Int × Option (List Event) :=
  match s.iter_index with
  | none => (s, none, none)
  | some i =>
      match fill i s.rx s.data s.events with
      | .closed data events =>
          ({ s with rx := [], data := data, events := events }, none, some [Event.End])
      | .ok rx data events =>
          let r := dueSplit s.sample_rate i events
          let due := r.1
          if h : i < data.length then
            ({ s with rx := rx, data := data, events := r.2, iter_index := some (i + 1) },
             some (data.get ⟨i, h⟩),
             if due.isEmpty then none else some due)
          else
            ({ s with rx := rx, data := data, events := r.2 },
             none,
             if due.isEmpty then none else some due)

/-- Plain iterator step, `impl Iterator for SpeakerSource`: drop the events
and return only the sample. -/
def SpeakerSource.next (s : SpeakerSource) : SpeakerSource × Option Int :=
  let r := next_sample_and_events s
  (r.1, r.2.1)

/-- Iterator step of `SpeakerSourceWithCallback`: the returned list records
the callback invocations performed on this pull, in invocation order. -/
def SpeakerSourceWithCallback.next (s : SpeakerSource) : SpeakerSource × Option Int × List Event :=
  let r := next_sample_and_events s
  (r.1, r.2.1, match r.2.2 with | none => [] | some evs => evs)

/-- Iterator step of `IterAudioAndEvents`: `None` when there is no sample,
otherwise the sample paired with the optional due-event batch. -/
def IterAudioAndEvents.next (s : SpeakerSource) : SpeakerSource × Option (Int × Option (List Event)) :=
  let r := next_sample_and_events s
  (r.1, match r.2.1 with | none => none | some sample => some (sample, r.2.2))

/-- Samples observed over `n` pulls of the plain iterator. -/
def plainRun : Nat → SpeakerSource → List (Option Int)
  | 0, _ => []
  | n + 1, s => (SpeakerSource.next s).2 :: plainRun n (SpeakerSource.next s).1

/-- Samples and accumulated callback invocations over `n` pulls of the
callback-wrapping adapter. -/
def cbRun : Nat → SpeakerSource → List (Option Int) × List Event
  | 0, _ => ([], [])
  | n + 1, s =>
      let r := SpeakerSourceWithCallback.next s
      let rest := cbRun n r.1
      (r.2.1 :: rest.1, r.2.2 ++ rest.2)

/-- Sample component observed over `n` pulls of the pair adapter. -/
def iaeRun : Nat → SpeakerSource → List (Option Int)
  | 0, _ => []
  | n + 1, s =>
      let r := IterAudioAndEvents.next s
      (r.2.map Prod.fst) :: iaeRun n r.1

/-- Due-event batches the bare cursor produces over `n` pulls, concatenated
in order. -/
def dueRun : Nat → SpeakerSource → List Event
  | 0, _ => []
  | n + 1, s =>
      let r := next_sample_and_events s
      (match r.2.2 with | none => [] | some evs => evs) ++ dueRun n r.1

/-- Cursor state after `n` pulls. -/
def pullN : Nat → SpeakerSource → SpeakerSource
  | 0, s => s
  | n + 1, s => pullN n (next_sample_and_events s).1

/-! Engine parameters and `SpeakerParams::apply_params`. -/

/-- Parameter enumeration values of the native engine (speak_lib.h, exposed
by the sys bindings as `espeak_PARAMETER_espeak*`). -/
def espeakRATE : Nat := 1

def espeakVOLUME : Nat := 2

def espeakPITCH : Nat := 3

def espeakRANGE : Nat := 4

def espeakPUNCTUATION : Nat := 5

def espeakCAPITALS : Nat := 6

def espeakWORDGAP : Nat := 7

/-- Synthesis flag `espeakSSML = 0x10` (speak_lib.h). -/
def espeakSSML : Nat := 16

/-- Synthesis flag `espeakCHARS_AUTO = 0` (speak_lib.h). -/
def espeakCHARS_AUTO : Nat := 0

/-- Global parameter state of the native engine: per-parameter current values
(mutated by `espeak_SetParameter`) and per-parameter built-in defaults, which
no API call changes. -/
structure EngineState where
  current : Nat → Int
  default : Nat → Int

/-- Native `espeak_SetParameter(parameter, value, 0)`: overwrite the current
value of one global parameter. -/
def espeak_SetParameter (s : EngineState) (param : Nat) (value : Int) : EngineState :=
  { s with current := fun q => if q = param then value else s.current q }

/-- Native `espeak_GetParameter(parameter, current)`. Per the engine's header
documentation, `current = 0` returns the built-in default value of the
parameter and `current = 1` returns the value most recently set. -/
def espeak_GetParameter (s : EngineState) (param : Nat) (current : Nat) : Int :=
  if current = 0 then s.default param else s.current param

/-- Per-request parameter set, mirroring `pub struct SpeakerParams`. -/
structure SpeakerParams where
  rate : Option Int
  volume : Option Int
  pitch : Option Int
  range : Option Int
  punctuation : Option Int
  capitals : Option Int
  word_gap : Option Int
  is_ssml : Bool
deriving DecidableEq

/-- Constructor `SpeakerParams::new()`: every numeric field unset, SSML off. -/
def SpeakerParams.new : SpeakerParams :=
  ⟨none, none, none, none, none, none, none, false⟩

/-- Engine operations performed by the worker, recorded as a trace. -/
inductive EngineOp where
  | setParameter (param : Nat) (value : Int) : EngineOp
  | getParameter (param : Nat) (current : Nat) : EngineOp
  | setVoiceByName (name : String) : EngineOp
  | setSynthCallback : EngineOp
  | synth (flags : Nat) : EngineOp
deriving DecidableEq

/-- The inner `apply_param` of `SpeakerParams::apply_params`: a set field is
written to the engine; an unset field is written with the value returned by
`espeak_GetParameter(param_enum, 0)`. The returned list records the engine
calls made. -/
def apply_param (param_enum : Nat) (value : Option Int) (s : EngineState) :
    EngineState × List EngineOp :=
  match value with
  | some v => (espeak_SetParameter s param_enum v, [.setParameter param_enum v])
  | none =>
      let d := espeak_GetParameter s param_enum 0
      (espeak_SetParameter s param_enum d, [.getParameter param_enum 0, .setParameter param_enum d])

/-- The seven `(parameter, optional value)` pairs of one parameter set, in the
order `apply_params` applies them. -/
def paramList (p : SpeakerParams) : List (Nat × Option Int) :=
  [(espeakRATE, p.rate), (espeakVOLUME, p.volume), (espeakPITCH, p.pitch),
   (espeakRANGE, p.range), (espeakPUNCTUATION, p.punctuation),
   (espeakCAPITALS, p.capitals), (espeakWORDGAP, p.word_gap)]

/-- Sequential application of a list of parameter writes, threading the engine
state and concatenating the call traces. -/
def applyList : List (Nat × Option Int) → EngineState → EngineState × List EngineOp
  | [], s => (s, [])
  | cv :: rest, s =>
      let r1 := apply_param cv.1 cv.2 s
      let r2 := applyList rest r1.1
      (r2.1, r1.2 ++ r2.2)

/-- Application `SpeakerParams::apply_params` (src/lib.rs lines 227-244): apply the seven
numeric fields to the engine, in declaration order. -/
def SpeakerParams.apply_params (p : SpeakerParams) (s : EngineState) :
    EngineState × List EngineOp :=
  applyList (paramList p) s

/-- Flags passed to `espeak_Synth`, computed in the worker closure of
`SpeakerSource::new`: `espeakSSML | espeakCHARS_AUTO` when SSML is requested,
else `espeakCHARS_AUTO`. -/
def synthFlags (p : SpeakerParams) : Nat :=
  if p.is_ssml then Nat.lor espeakSSML espeakCHARS_AUTO else espeakCHARS_AUTO

/-- The synthesis worker spawned by `SpeakerSource::new` (src/lib.rs lines
289-324), as the engine-state transformer plus the trace of engine calls it
performs. `select_voice_result` is the status the engine returns from
`espeak_SetVoiceByName`; the source discards that status, so the model takes
it as an argument and ignores it. An empty voice name is replaced by `"en"`
(done in `SpeakerSource::new` before spawning). -/
def worker (p : SpeakerParams) (voice_name : String) (select_voice_result : Int)
    (s : EngineState) : EngineState × List EngineOp :=
  let flags := synthFlags p
  let r := p.apply_params s
  (r.1,
   r.2 ++ [.setVoiceByName (if voice_name = "" then "en" else voice_name),
           .setSynthCallback, .synth flags])

/-- Selector for the seven numeric fields of a parameter set. -/
inductive ParamField where
  | rate | volume | pitch | range | punctuation | capitals | word_gap
deriving DecidableEq

/-- Optional value a parameter set holds for a field. -/
def fieldValue (p : SpeakerParams) : ParamField → Option Int
  | .rate => p.rate
  | .volume => p.volume
  | .pitch => p.pitch
  | .range => p.range
  | .punctuation => p.punctuation
  | .capitals => p.capitals
  | .word_gap => p.word_gap

/-- Engine parameter code of a field. -/
def fieldCode : ParamField → Nat
  | .rate => espeakRATE
  | .volume => espeakVOLUME
  | .pitch => espeakPITCH
  | .range => espeakRANGE
  | .punctuation => espeakPUNCTUATION
  | .capitals => espeakCAPITALS
  | .word_gap => espeakWORDGAP

/-! Voice catalog: `Voice::from_espeak_voice`. -/

/-- Voice gender, mirroring `pub enum Gender`. -/
inductive Gender where
  | Female | Male | NonBinary
deriving DecidableEq

/-- One language entry, mirroring `pub struct Language`. Strings are modelled
as their byte sequences (`c_char` values), so `name` is the list of non-NUL
bytes of the language name. -/
structure Language where
  priority : Int
  name : List Int
deriving DecidableEq

/-- Converted voice record, mirroring `pub struct Voice` with strings as byte
lists. -/
structure Voice where
  name : List Int
  identifier : List Int
  age : Nat
  gender : Gender
  languages : List Language
deriving DecidableEq

/-- Native `espeak_VOICE` record as the Rust code observes it: a nullable
pointer is `Option`; for `name`/`identifier` the payload is the pointed-to
NUL-terminated string content (bytes before the NUL); for `languages` it is
the packed priority/name byte buffer starting at the pointer. -/
structure espeak_VOICE where
  name : Option (List Int)
  identifier : Option (List Int)
  age : Nat
  gender : Nat
  languages : Option (List Int)
deriving DecidableEq

/-- Reading a NUL-terminated C string out of a byte buffer (the
`CStr::from_ptr` step): the bytes before the first NUL, and the bytes after
it. `none` when the buffer holds no NUL, in which case the source would read
past the provided memory. -/
def splitAtNul : List Int → Option (List Int × List Int)
  | [] => none
  | b :: rest =>
      if b = 0 then some ([], rest)
      else
        match splitAtNul rest with
        | none => none
        | some r => some (b :: r.1, r.2)

theorem splitAtNul_length :
    ∀ (l : List Int) (r : List Int × List Int), splitAtNul l = some r → r.2.length < l.length := by
  intro l
  induction l with
  | nil => intro r h; simp [splitAtNul] at h
  | cons b rest ih =>
      intro r h
      by_cases hb : b = 0
      · simp [splitAtNul, hb] at h
        subst h
        simp
      · simp [splitAtNul, hb] at h
        cases hs : splitAtNul rest with
        | none => rw [hs] at h; simp at h
        | some r0 =>
            rw [hs] at h
            simp at h
            have := ih r0 hs
            subst h
            simp
            omega

/-- The language-parsing loop of `Voice::from_espeak_voice` (src/lib.rs lines
149-165): while the priority byte is non-zero, take it, read the following
NUL-terminated name, and continue after the NUL. `none` models the loop
running past the provided buffer. -/
def parseLanguages (buf : List Int) : Option (List Language) :=
  match buf with
  | [] => none
  | b :: rest =>
      if b = 0 then some []
      else
        match h : splitAtNul rest with
        | none => none
        | some r =>
            match parseLanguages r.2 with
            | none => none
            | some langs => some (⟨b, r.1⟩ :: langs)
termination_by buf.length
decreasing_by
  simp only [List.length_cons]
  exact Nat.lt_succ_of_lt (splitAtNul_length rest r h)

/-- Gender code mapping of `Voice::from_espeak_voice`: `1 => Male`,
`2 => Female`, anything else `NonBinary`. -/
def genderOf : Nat → Gender
  | 1 => Gender.Male
  | 2 => Gender.Female
  | _ => Gender.NonBinary

/-- Conversion `Voice::from_espeak_voice` (src/lib.rs lines 126-174). `none` only arises
from the language loop running past its buffer; the UTF-8 decoding step is
not modelled (strings stay byte lists). -/
def Voice.from_espeak_voice (v : espeak_VOICE) : Option Voice :=
  let name := match v.name with | none => [] | some bs => bs
  let identifier := match v.identifier with | none => [] | some bs => bs
  let gender := genderOf v.gender
  match v.languages with
  | none => some ⟨name, identifier, v.age, gender, []⟩
  | some buf =>
      match parseLanguages buf with
      | none => none
      | some langs => some ⟨name, identifier, v.age, gender, langs⟩

/-! Synthesis callback: `SpeakerSource::synth_callback` event marshaling. -/

/-- Event-type enumeration values of the native engine (speak_lib.h), as the
sys bindings expose them. -/
def espeakEVENT_LIST_TERMINATED : Nat := 0

def espeakEVENT_WORD : Nat := 1

def espeakEVENT_SENTENCE : Nat := 2

def espeakEVENT_SAMPLERATE : Nat := 8

/-- Native `espeak_EVENT` fields the callback reads. `type_` is the event
kind; the three positions are C `int`s. -/
structure espeak_EVENT where
  type_ : Nat
  text_position : Int
  length : Int
  audio_position : Int
deriving DecidableEq

/-- Rust `try_into::<usize>().unwrap()` on a C `int`: succeeds exactly on
non-negative values, `none` models the panic. -/
def toUsize (value : Int) : Option Nat :=
  if 0 ≤ value then some value.toNat else none

/-- Rust `try_into::<u32>().unwrap()` on a C `int`: a 32-bit signed value fits
in `u32` exactly when it is non-negative. -/
def toU32 (value : Int) : Option Nat :=
  if 0 ≤ value then some value.toNat else none

/-- The per-entry `match` of `synth_callback`: `some none` is a silently
dropped event kind, `some (some e)` a kept event, `none` a panic in one of the
position conversions. Subtraction on `Nat` is exactly Rust's
`saturating_sub(1)`. -/
def eventOf (e : espeak_EVENT) : Option (Option Event) :=
  if e.type_ = espeakEVENT_SAMPLERATE then some (some Event.Start)
  else if e.type_ = espeakEVENT_WORD then
    match toUsize e.text_position, toUsize e.length with
    | some tp, some len => some (some (Event.Word (tp - 1) len))
    | _, _ => none
  else if e.type_ = espeakEVENT_SENTENCE then
    match toUsize e.text_position with
    | some tp => some (some (Event.Sentence (tp - 1)))
    | none => none
  else some none

/-- The event-list scan of `synth_callback` (src/lib.rs lines 399-427): walk
the native list until a `LIST_TERMINATED` entry, keeping converted events
paired with their `audio_position`. `none` models a conversion panic, or the
scan walking past the provided entries when no terminator is present. -/
def scanEvents : List espeak_EVENT → Option (List (Nat × Event))
  | [] => none
  | e :: rest =>
      if e.type_ = espeakEVENT_LIST_TERMINATED then some []
      else
        match eventOf e with
        | none => none
        | some none => scanEvents rest
        | some (some ev) =>
            match toU32 e.audio_position with
            | none => none
            | some ap =>
                match scanEvents rest with
                | none => none
                | some tail => some ((ap, ev) :: tail)

/-! Concrete states used to instantiate the theorems below. -/

/-- Cursor whose channel is closed with nothing pending. -/
def sClosed : SpeakerSource := ⟨[], 22050, [], [], some 0⟩

/-- Cursor whose channel is closed while a due event is still pending. -/
def sC1 : SpeakerSource := ⟨[], 1000, [], [(0, Event.Word 0 3)], some 0⟩

/-- Cursor with two buffered samples, one due event and one not-yet-due event. -/
def sC1w : SpeakerSource :=
  ⟨[], 22050, [5, 6], [(0, Event.Start), (1000, Event.Word 0 1)], some 0⟩

/-- Engine whose rate parameter was explicitly set to 80 by an earlier request
while the built-in default is 175. -/
def engineC7 : EngineState := ⟨fun _ => 80, fun _ => 175⟩

/-- Engine state with all parameters zeroed. -/
def engine0 : EngineState := ⟨fun _ => 0, fun _ => 0⟩

/-- Request A: explicitly sets the rate. -/
def spA : SpeakerParams := { SpeakerParams.new with rate := some 80 }

/-- Engine calls `apply_params` performs for one field whose parameter code is
`c`, where `d` is the engine's built-in default for `c`: a set field is one
write; an unset field is one default-read followed by one write of that
default. -/
def fieldOps (c : Nat) (v : Option Int) (d : Int) : List EngineOp :=
  match v with
  | some v => [.setParameter c v]
  | none => [.getParameter c 0, .setParameter c d]

/-- Recognizer for engine writes to parameter code `c`. -/
def isWriteTo (c : Nat) : EngineOp → Bool
  | .setParameter q _ => q == c
  | _ => false

/-- Field signs under which `synth_callback` processes a native event entry
without panicking: every position converted for that entry's kind is
non-negative. -/
def Convertible (e : espeak_EVENT) : Prop :=
  (e.type_ = espeakEVENT_SAMPLERATE → 0 ≤ e.audio_position) ∧
  (e.type_ = espeakEVENT_WORD → 0 ≤ e.text_position ∧ 0 ≤ e.length ∧ 0 ≤ e.audio_position) ∧
  (e.type_ = espeakEVENT_SENTENCE → 0 ≤ e.text_position ∧ 0 ≤ e.audio_position)

instance (e : espeak_EVENT) : Decidable (Convertible e) := by
  unfold Convertible
  infer_instance

/-- Modelled from the spec wording of the callback mapping, for comparison
with `scanEvents`: `SAMPLERATE → Start`, `WORD → Word(text_position − 1,
length)`, `SENTENCE → Sentence(text_position − 1)`, paired with the entry's
`audio_position`, every other kind dropped. -/
def specMapEntry (e : espeak_EVENT) : Option (Nat × Event) :=
  if e.type_ = espeakEVENT_SAMPLERATE then some (e.audio_position.toNat, Event.Start)
  else if e.type_ = espeakEVENT_WORD then
    some (e.audio_position.toNat, Event.Word (e.text_position.toNat - 1) e.length.toNat)
  else if e.type_ = espeakEVENT_SENTENCE then
    some (e.audio_position.toNat, Event.Sentence (e.text_position.toNat - 1))
  else none

/-- Native event list: a `SAMPLERATE` entry, a `WORD` entry, an `END` entry
(kind 5, dropped) and a `SENTENCE` entry, before the terminator `tC4`. -/
def preC4 : List espeak_EVENT :=
  [⟨espeakEVENT_SAMPLERATE, 0, 0, 0⟩, ⟨espeakEVENT_WORD, 1, 5, 0⟩,
   ⟨5, 0, 0, 100⟩, ⟨espeakEVENT_SENTENCE, 14, 0, 200⟩]

/-- List-terminator entry. -/
def tC4 : espeak_EVENT := ⟨espeakEVENT_LIST_TERMINATED, 0, 0, 0⟩

/-- Word entry whose native `text_position` is 0, exercising the saturating
offset adjustment. -/
def eC10 : espeak_EVENT := ⟨espeakEVENT_WORD, 0, 5, 0⟩

/-- Native voice record: name "Fr", null identifier, gender code 1, languages
buffer holding priority 5 with name "fr-ch" and priority 8 with name "fr",
then the zero terminator. -/
def vC6 : espeak_VOICE :=
  ⟨some [70, 114], none, 0, 1, some [5, 102, 114, 45, 99, 104, 0, 8, 102, 114, 0, 0]⟩

/-- Expected conversion of `vC6`. -/
def wC6 : Voice :=
  ⟨[70, 114], [], 0, Gender.Male, [⟨5, [102, 114, 45, 99, 104]⟩, ⟨8, [102, 114]⟩]⟩

/-- Predicate deciding whether a pending event is due at sample index `i`:
the negation of the loop's break condition `at_sample > i`. -/
def dueP (sample_rate i : Nat) : Nat × Event → Bool :=
  fun ev => decide (atSample sample_rate ev.1 ≤ i)

/-- A cursor state that can never again deliver a sample: either it is
terminal, or its channel is closed and the requested index is past the
buffered data. -/
def Dead (t : SpeakerSource) : Prop :=
  t.iter_index = none ∨ (t.rx = [] ∧ ∀ i, t.iter_index = some i → t.data.length ≤ i)

/-! Supporting lemmas about the receive loop and the due-event scan. -/

theorem fill_closed_le (i : Nat) (rx : List Chunk) :
    ∀ (data : List Int) (events : List (Nat × Event)) d e,
      fill i rx data events = .closed d e → d.length ≤ i := by
  induction rx with
  | nil =>
      intro data events d e h
      by_cases hge : i ≥ data.length
      · simp only [fill, if_pos hge, FillResult.closed.injEq] at h
        obtain ⟨h1, -⟩ := h
        subst h1
        exact hge
      · simp [fill, hge] at h
  | cons c rest ih =>
      intro data events d e h
      by_cases hge : i ≥ data.length
      · simp only [fill, if_pos hge] at h
        exact ih _ _ _ _ h
      · simp [fill, hge] at h

theorem fill_ok_lt (i : Nat) (rx : List Chunk) :
    ∀ (data : List Int) (events : List (Nat × Event)) rx' d e,
      fill i rx data events = .ok rx' d e → i < d.length := by
  induction rx with
  | nil =>
      intro data events rx' d e h
      by_cases hge : i ≥ data.length
      · simp [fill, hge] at h
      · simp only [fill, if_neg hge, FillResult.ok.injEq] at h
        obtain ⟨-, h2, -⟩ := h
        subst h2
        omega
  | cons c rest ih =>
      intro data events rx' d e h
      by_cases hge : i ≥ data.length
      · simp only [fill, if_pos hge] at h
        exact ih _ _ _ _ _ h
      · simp only [fill, if_neg hge, FillResult.ok.injEq] at h
        obtain ⟨-, h2, -⟩ := h
        subst h2
        omega

theorem next_of_dead (t : SpeakerSource) (h : Dead t) :
    (next_sample_and_events t).2.1 = none ∧ Dead (next_sample_and_events t).1 := by
  rcases h with h | ⟨hrx, hlen⟩
  · simp [next_sample_and_events, h, Dead]
  · cases hidx : t.iter_index with
    | none => simp [next_sample_and_events, hidx, Dead]
    | some i =>
        have hge : i ≥ t.data.length := hlen i hidx
        have hfill : fill i t.rx t.data t.events = .closed t.data t.events := by
          rw [hrx]
          simp [fill, hge]
        constructor
        · simp [next_sample_and_events, hidx, hfill]
        · simp only [next_sample_and_events, hidx, hfill, Dead]
          right
          refine ⟨by trivial, ?_⟩
          intro j hj
          simp only [hidx, Option.some.injEq] at hj
          subst hj
          simpa using hge

theorem none_sample_dead (s : SpeakerSource)
    (h : (next_sample_and_events s).2.1 = none) :
    Dead (next_sample_and_events s).1 := by
  cases hidx : s.iter_index with
  | none => simp [next_sample_and_events, hidx, Dead]
  | some i =>
      cases hf : fill i s.rx s.data s.events with
      | ok rx' d e =>
          have hlt : i < d.length := fill_ok_lt i s.rx s.data s.events rx' d e hf
          simp [next_sample_and_events, hidx, hf, hlt] at h
      | closed d e =>
          have hle : d.length ≤ i := fill_closed_le i s.rx s.data s.events d e hf
          simp only [next_sample_and_events, hidx, hf, Dead]
          right
          refine ⟨by trivial, ?_⟩
          intro j hj
          simp only [hidx, Option.some.injEq] at hj
          subst hj
          simpa using hle

theorem dead_pullN (t : SpeakerSource) (h : Dead t) : ∀ n, Dead (pullN n t) := by
  intro n
  induction n generalizing t with
  | zero => exact h
  | succ n ih => exact ih _ (next_of_dead t h).2

theorem dueSplit_eq (sr i : Nat) (l : List (Nat × Event)) :
    dueSplit sr i l = ((l.takeWhile (dueP sr i)).map Prod.snd, l.dropWhile (dueP sr i)) := by
  induction l with
  | nil => simp [dueSplit]
  | cons ev rest ih =>
      obtain ⟨ap, e⟩ := ev
      by_cases h : atSample sr ap > i
      · have hp : dueP sr i (ap, e) = false := by
          simp only [dueP, decide_eq_false_iff_not]
          omega
        simp [dueSplit, h, List.takeWhile_cons, List.dropWhile_cons, hp]
      · have hp : dueP sr i (ap, e) = true := by
          simp only [dueP, decide_eq_true_eq]
          omega
        simp [dueSplit, h, List.takeWhile_cons, List.dropWhile_cons, hp, ih]

theorem takeWhile_eq_filter_of_mono (sr i : Nat) (l : List (Nat × Event))
    (hmono : l.Pairwise (fun a b => atSample sr a.1 ≤ atSample sr b.1)) :
    l.takeWhile (dueP sr i) = l.filter (dueP sr i) := by
  induction l with
  | nil => rfl
  | cons a rest ih =>
      rcases List.pairwise_cons.1 hmono with ⟨ha, hrest⟩
      cases hd : dueP sr i a with
      | false =>
          have hall : rest.filter (dueP sr i) = [] := by
            refine List.filter_eq_nil_iff.2 ?_
            intro b hb
            have hab := ha b hb
            simp only [dueP, decide_eq_false_iff_not] at hd
            simp only [dueP, decide_eq_true_eq]
            omega
          simp [List.takeWhile_cons, List.filter_cons, hd, hall]
      | true => simp [List.takeWhile_cons, List.filter_cons, hd, ih hrest]

/-! Claim theorems. -/

/-- C1 (counterexample): the claim asserts that on every non-terminal pull an
event is delivered exactly when its threshold `audio_position * sample_rate /
1000` is at most the current index. In state `sC1` the cursor is non-terminal
(`iter_index = some 0`), the single pending event is due (threshold `0 ≤ 0`),
yet the pull — which hits the closed channel — returns only the synthesized
`End` and leaves the due event in the queue undelivered. -/
theorem C1_counterexample :
    sC1.iter_index = some 0 ∧
    atSample sC1.sample_rate 0 ≤ 0 ∧
    (next_sample_and_events sC1).2.2 = some [Event.End] ∧
    ((next_sample_and_events sC1).1).events = [(0, Event.Word 0 3)] := by
  decide

/-- C1 (amended): on every pull in a non-terminal state on which the receive
loop succeeds (equivalently, on which a sample is returned), and with the
pending queue sorted by computed threshold, an event is delivered exactly
when its threshold — the 32-bit wrapping product `audio_position *
sample_rate` divided by 1000 — is at most the current index; the due events
are removed from the front of the queue in original order, the scan stops at
the first event whose threshold exceeds the index, and no event is delivered
before its computed threshold position. -/
theorem C1_amended (s : SpeakerSource) (i : Nat) (rx' : List Chunk) (data' : List Int)
    (events' : List (Nat × Event))
    (hidx : s.iter_index = some i)
    (hfill : fill i s.rx s.data s.events = .ok rx' data' events')
    (hmono : events'.Pairwise
      (fun a b => atSample s.sample_rate a.1 ≤ atSample s.sample_rate b.1)) :
    ((next_sample_and_events s).2.2 =
      if (events'.takeWhile (dueP s.sample_rate i)).isEmpty then none
      else some ((events'.takeWhile (dueP s.sample_rate i)).map Prod.snd)) ∧
    ((next_sample_and_events s).1).events = events'.dropWhile (dueP s.sample_rate i) ∧
    (∀ ev ∈ events'.takeWhile (dueP s.sample_rate i), atSample s.sample_rate ev.1 ≤ i) ∧
    (∀ ev ∈ events',
      (atSample s.sample_rate ev.1 ≤ i ↔ ev ∈ events'.takeWhile (dueP s.sample_rate i))) := by
  have hlt : i < data'.length := fill_ok_lt i s.rx s.data s.events rx' data' events' hfill
  have hsplit := dueSplit_eq s.sample_rate i events'
  refine ⟨?_, ?_, ?_, ?_⟩
  · simp [next_sample_and_events, hidx, hfill, hlt, hsplit, List.isEmpty_iff]
  · simp [next_sample_and_events, hidx, hfill, hlt, hsplit]
  · intro ev hev
    have := List.mem_takeWhile_imp hev
    simpa [dueP] using this
  · intro ev hev
    rw [takeWhile_eq_filter_of_mono s.sample_rate i events' hmono]
    constructor
    · intro hle
      refine List.mem_filter.2 ⟨hev, ?_⟩
      simpa [dueP] using hle
    · intro hmem
      have := (List.mem_filter.1 hmem).2
      simpa [dueP] using this

/-- C1 (witness): instance of the amended claim on a cursor with two buffered
samples, a due `Start` event and a not-yet-due `Word` event. -/
theorem C1_witness :
    (next_sample_and_events sC1w).2.2 = some [Event.Start] ∧
    ((next_sample_and_events sC1w).1).events = [(1000, Event.Word 0 1)] := by
  have h := C1_amended sC1w 0 [] [5, 6] [(0, Event.Start), (1000, Event.Word 0 1)]
    rfl rfl (by decide)
  refine ⟨?_, ?_⟩
  · rw [h.1]; decide
  · rw [h.2.1]; decide

/-- C3 (code evaluation at the failing input): with the channel closed and
nothing pending, the claim requires the first pull to move the cursor to a
terminal state and every later pull to return end-of-stream with no events,
so that `End` is emitted exactly once. The code never assigns `None` to
`iter_index` (its terminal branch is dead), so the pull after the first one
again returns `(None, [End])`: the `End` event is re-emitted on every pull
and the cursor never becomes terminal. -/
theorem C3_end_repeated :
    (next_sample_and_events sClosed).2 = (none, some [Event.End]) ∧
    ((next_sample_and_events sClosed).1).iter_index = some 0 ∧
    (next_sample_and_events (next_sample_and_events sClosed).1).2 =
      (none, some [Event.End]) := by
  decide

/-- C8: both observer adapters are pure pass-throughs over the cursor — over
any number of pulls from any state, the callback adapter and the pair adapter
produce exactly the sample sequence of the plain cursor, and the callback
adapter's handler invocations are exactly the due-event batches of the bare
cursor, in order. -/
theorem C8_adapters_passthrough (n : Nat) (s : SpeakerSource) :
    (cbRun n s).1 = plainRun n s ∧
    iaeRun n s = plainRun n s ∧
    (cbRun n s).2 = dueRun n s := by
  induction n generalizing s with
  | zero => exact ⟨rfl, rfl, rfl⟩
  | succ n ih =>
      refine ⟨?_, ?_, ?_⟩
      · simp only [cbRun, plainRun, SpeakerSourceWithCallback.next, SpeakerSource.next]
        exact congrArg _ (ih _).1
      · simp only [iaeRun, plainRun, IterAudioAndEvents.next, SpeakerSource.next]
        rw [(ih _).2.1]
        cases (next_sample_and_events s).2.1 <;> rfl
      · simp only [cbRun, dueRun, SpeakerSourceWithCallback.next]
        exact congrArg _ (ih _).2.2

/-- C9: once a pull reports no sample, every subsequent pull reports no
sample — after end-of-stream is signalled the stream never yields a sample
again, for every sequence of pulls. -/
theorem C9_no_sample_after_end (s s' : SpeakerSource) (evs : Option (List Event))
    (h : next_sample_and_events s = (s', none, evs)) :
    ∀ n, (next_sample_and_events (pullN n s')).2.1 = none := by
  intro n
  have hd : Dead s' := by
    have := none_sample_dead s (by rw [h])
    rwa [h] at this
  exact (next_of_dead _ (dead_pullN s' hd n)).1

/-- C9 (witness): the closed-channel cursor `sClosed` reports no sample, and
pulling three more times still reports no sample. -/
theorem C9_witness :
    next_sample_and_events sClosed = (sClosed, none, some [Event.End]) ∧
    (next_sample_and_events (pullN 3 sClosed)).2.1 = none :=
  ⟨rfl, C9_no_sample_after_end sClosed sClosed (some [Event.End]) rfl 3⟩

/-! Lemmas about sequential parameter application. -/

theorem apply_param_default (c : Nat) (v : Option Int) (s : EngineState) :
    ((apply_param c v s).1).default = s.default := by
  cases v <;> rfl

theorem applyList_default (l : List (Nat × Option Int)) :
    ∀ s : EngineState, ((applyList l s).1).default = s.default := by
  induction l with
  | nil => intro s; rfl
  | cons cv rest ih =>
      intro s
      simp only [applyList]
      rw [ih, apply_param_default]

theorem apply_param_current_ne (c : Nat) (v : Option Int) (s : EngineState) (q : Nat)
    (h : q ≠ c) : ((apply_param c v s).1).current q = s.current q := by
  cases v <;> simp [apply_param, espeak_SetParameter, h]

theorem applyList_current_notmem (l : List (Nat × Option Int)) :
    ∀ (s : EngineState) (q : Nat), q ∉ l.map Prod.fst →
      ((applyList l s).1).current q = s.current q := by
  induction l with
  | nil => intro s q _; rfl
  | cons cv rest ih =>
      intro s q h
      simp only [List.map_cons, List.mem_cons] at h
      push_neg at h
      simp only [applyList]
      rw [ih _ _ h.2, apply_param_current_ne _ _ _ _ h.1]

theorem applyList_append_state (l₁ l₂ : List (Nat × Option Int)) :
    ∀ s : EngineState, (applyList (l₁ ++ l₂) s).1 = (applyList l₂ (applyList l₁ s).1).1 := by
  induction l₁ with
  | nil => intro s; rfl
  | cons cv rest ih =>
      intro s
      simp only [List.cons_append, applyList, List.append_eq]
      rw [ih]

theorem applyList_none_default (l₁ l₂ : List (Nat × Option Int)) (c : Nat) (s : EngineState)
    (h : c ∉ l₂.map Prod.fst) :
    ((applyList (l₁ ++ (c, none) :: l₂) s).1).current c = s.default c := by
  rw [applyList_append_state]
  have hmid : ((apply_param c none (applyList l₁ s).1).1).current c =
      ((applyList l₁ s).1).default c := by
    simp [apply_param, espeak_SetParameter, espeak_GetParameter]
  simp only [applyList]
  rw [applyList_current_notmem l₂ _ c h, hmid, applyList_default]

/-- For any parameter set with field `f` unset, applying the set leaves the
engine's current value for `f` equal to the engine's built-in default. -/
theorem apply_params_current_none (B : SpeakerParams) (f : ParamField) (s : EngineState)
    (h : fieldValue B f = none) :
    ((B.apply_params s).1).current (fieldCode f) = s.default (fieldCode f) := by
  cases f
  case rate =>
      simp only [fieldValue] at h
      have := applyList_none_default []
        [(espeakVOLUME, B.volume), (espeakPITCH, B.pitch), (espeakRANGE, B.range),
         (espeakPUNCTUATION, B.punctuation), (espeakCAPITALS, B.capitals),
         (espeakWORDGAP, B.word_gap)] espeakRATE s (by simp [espeakRATE, espeakVOLUME, espeakPITCH, espeakRANGE, espeakPUNCTUATION, espeakCAPITALS, espeakWORDGAP])
      simpa [SpeakerParams.apply_params, paramList, fieldCode, h] using this
  case volume =>
      simp only [fieldValue] at h
      have := applyList_none_default [(espeakRATE, B.rate)]
        [(espeakPITCH, B.pitch), (espeakRANGE, B.range),
         (espeakPUNCTUATION, B.punctuation), (espeakCAPITALS, B.capitals),
         (espeakWORDGAP, B.word_gap)] espeakVOLUME s (by simp [espeakRATE, espeakVOLUME, espeakPITCH, espeakRANGE, espeakPUNCTUATION, espeakCAPITALS, espeakWORDGAP])
      simpa [SpeakerParams.apply_params, paramList, fieldCode, h] using this
  case pitch =>
      simp only [fieldValue] at h
      have := applyList_none_default [(espeakRATE, B.rate), (espeakVOLUME, B.volume)]
        [(espeakRANGE, B.range), (espeakPUNCTUATION, B.punctuation),
         (espeakCAPITALS, B.capitals), (espeakWORDGAP, B.word_gap)] espeakPITCH s (by simp [espeakRATE, espeakVOLUME, espeakPITCH, espeakRANGE, espeakPUNCTUATION, espeakCAPITALS, espeakWORDGAP])
      simpa [SpeakerParams.apply_params, paramList, fieldCode, h] using this
  case range =>
      simp only [fieldValue] at h
      have := applyList_none_default
        [(espeakRATE, B.rate), (espeakVOLUME, B.volume), (espeakPITCH, B.pitch)]
        [(espeakPUNCTUATION, B.punctuation), (espeakCAPITALS, B.capitals),
         (espeakWORDGAP, B.word_gap)] espeakRANGE s (by simp [espeakRATE, espeakVOLUME, espeakPITCH, espeakRANGE, espeakPUNCTUATION, espeakCAPITALS, espeakWORDGAP])
      simpa [SpeakerParams.apply_params, paramList, fieldCode, h] using this
  case punctuation =>
      simp only [fieldValue] at h
      have := applyList_none_default
        [(espeakRATE, B.rate), (espeakVOLUME, B.volume), (espeakPITCH, B.pitch),
         (espeakRANGE, B.range)]
        [(espeakCAPITALS, B.capitals), (espeakWORDGAP, B.word_gap)] espeakPUNCTUATION s (by simp [espeakRATE, espeakVOLUME, espeakPITCH, espeakRANGE, espeakPUNCTUATION, espeakCAPITALS, espeakWORDGAP])
      simpa [SpeakerParams.apply_params, paramList, fieldCode, h] using this
  case capitals =>
      simp only [fieldValue] at h
      have := applyList_none_default
        [(espeakRATE, B.rate), (espeakVOLUME, B.volume), (espeakPITCH, B.pitch),
         (espeakRANGE, B.range), (espeakPUNCTUATION, B.punctuation)]
        [(espeakWORDGAP, B.word_gap)] espeakCAPITALS s (by simp [espeakRATE, espeakVOLUME, espeakPITCH, espeakRANGE, espeakPUNCTUATION, espeakCAPITALS, espeakWORDGAP])
      simpa [SpeakerParams.apply_params, paramList, fieldCode, h] using this
  case word_gap =>
      simp only [fieldValue] at h
      have := applyList_none_default
        [(espeakRATE, B.rate), (espeakVOLUME, B.volume), (espeakPITCH, B.pitch),
         (espeakRANGE, B.range), (espeakPUNCTUATION, B.punctuation),
         (espeakCAPITALS, B.capitals)] [] espeakWORDGAP s (by simp [espeakRATE, espeakVOLUME, espeakPITCH, espeakRANGE, espeakPUNCTUATION, espeakCAPITALS, espeakWORDGAP])
      simpa [SpeakerParams.apply_params, paramList, fieldCode, h] using this

/-- C2: for two sequential requests A then B, any numeric field unset in B is
in effect at the engine default during B's synthesis — `apply_params` writes
`espeak_GetParameter(param, 0)`, the engine's built-in default, over whatever
request A set, so A's explicit configuration never leaks into B. The
right-hand side mentions only the engine's immutable defaults, so the value
is independent of A. -/
theorem C2_no_leakage (s : EngineState) (A B : SpeakerParams) (f : ParamField)
    (h : fieldValue B f = none) :
    ((B.apply_params (A.apply_params s).1).1).current (fieldCode f) =
      s.default (fieldCode f) := by
  rw [apply_params_current_none B f _ h]
  simp only [SpeakerParams.apply_params]
  rw [applyList_default]

/-- C2 (witness): request A sets the rate to 80; request B leaves it unset;
with built-in default 0 the rate in effect after B's apply is 0, not 80. -/
theorem C2_witness :
    fieldValue SpeakerParams.new ParamField.rate = none ∧
    ((SpeakerParams.new.apply_params (spA.apply_params engine0).1).1).current
        (fieldCode ParamField.rate) = engine0.default (fieldCode ParamField.rate) ∧
    engine0.default (fieldCode ParamField.rate) = 0 ∧
    ((spA.apply_params engine0).1).current (fieldCode ParamField.rate) = 80 :=
  ⟨rfl, C2_no_leakage engine0 spA SpeakerParams.new ParamField.rate rfl, rfl, by decide⟩

theorem applyList_trace (l : List (Nat × Option Int)) :
    ∀ s : EngineState,
      (applyList l s).2 = (l.map (fun cv => fieldOps cv.1 cv.2 (s.default cv.1))).flatten := by
  induction l with
  | nil => intro s; rfl
  | cons cv rest ih =>
      intro s
      simp only [applyList, List.map_cons, List.flatten_cons]
      rw [ih, apply_param_default]
      congr 1
      cases hv : cv.2 <;> simp [apply_param, fieldOps, espeak_GetParameter, hv]

theorem fieldOps_filter_count (c : Nat) (v : Option Int) (d : Int) (q : Nat) :
    ((fieldOps c v d).filter (isWriteTo q)).length = if c = q then 1 else 0 := by
  cases v <;> by_cases h : c = q <;> simp [fieldOps, isWriteTo, h]

/-- C7 (counterexample): the claim says an unset field is applied by reading
the engine's current value and writing it back unchanged, which would leave
the current value intact. On an engine whose current rate is 80 (set by an
earlier request) with built-in default 175, applying an all-unset parameter
set changes the current rate to 175: `espeak_GetParameter(param, 0)` reads
the default, not the current value. -/
theorem C7_counterexample :
    ((SpeakerParams.new.apply_params engineC7).1).current espeakRATE = 175 ∧
    engineC7.current espeakRATE = 80 := by
  exact ⟨by decide, rfl⟩

/-- C7 (amended): applying a parameter set performs exactly one engine write
per numeric field — a set field is written with its value, an unset field is
written with the engine's built-in default obtained by a read with the
default flag (`espeak_GetParameter(param, 0)`) — and the SSML flag is not
applied through this mechanism: it only selects the flags argument
(`espeakSSML | espeakCHARS_AUTO` vs `espeakCHARS_AUTO`) of the synthesis
call itself. -/
theorem C7_amended (p : SpeakerParams) (s : EngineState) (vn : String) (err : Int) :
    ((p.apply_params s).2 =
      ((paramList p).map (fun cv => fieldOps cv.1 cv.2 (s.default cv.1))).flatten) ∧
    (∀ f : ParamField, (((p.apply_params s).2).filter (isWriteTo (fieldCode f))).length = 1) ∧
    ((worker p vn err s).2 =
      (p.apply_params s).2 ++
        [.setVoiceByName (if vn = "" then "en" else vn), .setSynthCallback,
         .synth (if p.is_ssml then 16 else 0)]) := by
  refine ⟨applyList_trace _ _, ?_, ?_⟩
  · intro f
    rw [SpeakerParams.apply_params, applyList_trace]
    cases f <;>
      simp [paramList, List.flatten, List.filter_append, fieldOps_filter_count, fieldCode,
        espeakRATE, espeakVOLUME, espeakPITCH, espeakRANGE, espeakPUNCTUATION,
        espeakCAPITALS, espeakWORDGAP]
  · cases hs : p.is_ssml <;>
      simp [worker, synthFlags, SpeakerParams.apply_params, hs, espeakSSML, espeakCHARS_AUTO,
        Nat.lor]

/-- C5 (counterexample): the claim says that after a failed voice selection
the worker does not proceed to invoke the synthesis entry point. The worker
discards the status returned by `espeak_SetVoiceByName`, so even when the
engine reports failure status 2 (`EE_NOT_FOUND`, unknown voice name) the
trace still contains the `espeak_Synth` invocation. -/
theorem C5_counterexample :
    EngineOp.synth espeakCHARS_AUTO ∈ (worker SpeakerParams.new "unknown-voice" 2 engine0).2 := by
  simp [worker, synthFlags, SpeakerParams.new]

/-- C5 (amended): a failure of the voice-selection call is ignored — its
status is discarded, so the worker's engine-call trace does not depend on it,
and the trace always reaches the synthesis invocation. -/
theorem C5_amended (p : SpeakerParams) (vn : String) (e1 e2 : Int) (s : EngineState) :
    (worker p vn e1 s).2 = (worker p vn e2 s).2 ∧
    EngineOp.synth (synthFlags p) ∈ (worker p vn e1 s).2 :=
  ⟨rfl, by simp [worker]⟩

/-- C4: the callback scan stops at the list terminator, maps `SAMPLERATE` to
`Start`, `WORD` to `Word(text_position − 1, length)` and `SENTENCE` to
`Sentence(text_position − 1)`, silently drops every other kind, pairs each
kept event with its native `audio_position`, and preserves list order: it is
exactly the order-preserving `filterMap` of the per-entry spec mapping over
the entries before the terminator. -/
theorem C4_scan_mapping (pre rest : List espeak_EVENT) (t : espeak_EVENT)
    (ht : t.type_ = espeakEVENT_LIST_TERMINATED)
    (hnt : ∀ e ∈ pre, e.type_ ≠ espeakEVENT_LIST_TERMINATED)
    (hc : ∀ e ∈ pre, Convertible e) :
    scanEvents (pre ++ t :: rest) = some (pre.filterMap specMapEntry) := by
  induction pre with
  | nil => simp [scanEvents, ht]
  | cons e pr ih =>
      have hne : e.type_ ≠ espeakEVENT_LIST_TERMINATED := hnt e (List.mem_cons_self e pr)
      obtain ⟨h8, h1, h2⟩ : Convertible e := hc e (List.mem_cons_self e pr)
      have ihr := ih (fun x hx => hnt x (List.mem_cons_of_mem e hx))
        (fun x hx => hc x (List.mem_cons_of_mem e hx))
      by_cases t8 : e.type_ = espeakEVENT_SAMPLERATE
      · have hap := h8 t8
        simp [scanEvents, hne, eventOf, t8, toU32, hap, ihr, specMapEntry,
          List.filterMap_cons, espeakEVENT_LIST_TERMINATED, espeakEVENT_WORD, espeakEVENT_SENTENCE, espeakEVENT_SAMPLERATE]
      · by_cases t1 : e.type_ = espeakEVENT_WORD
        · obtain ⟨htp, hlen, hap⟩ := h1 t1
          simp [scanEvents, hne, eventOf, t1, t8, toUsize, toU32, htp, hlen, hap, ihr,
            specMapEntry, List.filterMap_cons, espeakEVENT_LIST_TERMINATED, espeakEVENT_WORD, espeakEVENT_SENTENCE, espeakEVENT_SAMPLERATE]
        · by_cases t2 : e.type_ = espeakEVENT_SENTENCE
          · obtain ⟨htp, hap⟩ := h2 t2
            simp [scanEvents, hne, eventOf, t2, t8, t1, toUsize, toU32, htp, hap, ihr,
              specMapEntry, List.filterMap_cons, espeakEVENT_LIST_TERMINATED, espeakEVENT_WORD, espeakEVENT_SENTENCE, espeakEVENT_SAMPLERATE]
          · simp only [espeakEVENT_LIST_TERMINATED, espeakEVENT_WORD, espeakEVENT_SENTENCE,
              espeakEVENT_SAMPLERATE] at hne t8 t1 t2
            simp [scanEvents, hne, eventOf, t8, t1, t2, ihr, specMapEntry,
              List.filterMap_cons, espeakEVENT_LIST_TERMINATED, espeakEVENT_WORD,
              espeakEVENT_SENTENCE, espeakEVENT_SAMPLERATE]

/-- C4 (witness): a native list with a `SAMPLERATE`, a `WORD` at one-based
position 1 of length 5, a dropped `END`-kind entry at 100 ms and a `SENTENCE`
at one-based position 14 at 200 ms, then the terminator. -/
theorem C4_witness :
    tC4.type_ = espeakEVENT_LIST_TERMINATED ∧
    (∀ e ∈ preC4, e.type_ ≠ espeakEVENT_LIST_TERMINATED) ∧
    (∀ e ∈ preC4, Convertible e) ∧
    scanEvents (preC4 ++ tC4 :: []) = some (preC4.filterMap specMapEntry) ∧
    preC4.filterMap specMapEntry =
      [(0, Event.Start), (0, Event.Word 0 5), (200, Event.Sentence 13)] :=
  ⟨rfl, by decide, by decide, C4_scan_mapping preC4 [] tC4 rfl (by decide) (by decide),
   by decide⟩

/-- C10: the one-based-to-zero-based adjustment in the callback is a
saturating subtraction on the converted unsigned position, so for any `Word`
or `Sentence` entry with non-negative native positions the conversion
succeeds, the resulting offset is `text_position − 1` computed without
underflow, and a native `text_position` of 0 maps to byte offset 0. -/
theorem C10_saturating_offsets (e : espeak_EVENT) :
    (e.type_ = espeakEVENT_WORD → 0 ≤ e.text_position → 0 ≤ e.length →
      eventOf e = some (some (Event.Word (e.text_position.toNat - 1) e.length.toNat)) ∧
      (e.text_position = 0 → eventOf e = some (some (Event.Word 0 e.length.toNat)))) ∧
    (e.type_ = espeakEVENT_SENTENCE → 0 ≤ e.text_position →
      eventOf e = some (some (Event.Sentence (e.text_position.toNat - 1))) ∧
      (e.text_position = 0 → eventOf e = some (some (Event.Sentence 0)))) := by
  constructor
  · intro t1 htp hlen
    have t8 : ¬ e.type_ = espeakEVENT_SAMPLERATE := by
      rw [t1]; decide
    have hmain : eventOf e =
        some (some (Event.Word (e.text_position.toNat - 1) e.length.toNat)) := by
      simp [eventOf, t1, t8, toUsize, htp, hlen, espeakEVENT_LIST_TERMINATED, espeakEVENT_WORD, espeakEVENT_SENTENCE, espeakEVENT_SAMPLERATE]
    refine ⟨hmain, ?_⟩
    intro h0
    rw [hmain, h0]
    rfl
  · intro t2 htp
    have t8 : ¬ e.type_ = espeakEVENT_SAMPLERATE := by
      rw [t2]; decide
    have t1 : ¬ e.type_ = espeakEVENT_WORD := by
      rw [t2]; decide
    have hmain : eventOf e = some (some (Event.Sentence (e.text_position.toNat - 1))) := by
      simp [eventOf, t2, t8, t1, toUsize, htp, espeakEVENT_LIST_TERMINATED, espeakEVENT_WORD, espeakEVENT_SENTENCE, espeakEVENT_SAMPLERATE]
    refine ⟨hmain, ?_⟩
    intro h0
    rw [hmain, h0]
    rfl

/-- C10 (witness): the `Word` entry `eC10` with native `text_position = 0`
converts without underflow to byte offset 0. -/
theorem C10_witness :
    eC10.type_ = espeakEVENT_WORD ∧
    eC10.text_position = 0 ∧
    eventOf eC10 = some (some (Event.Word 0 5)) :=
  ⟨rfl, rfl, ((C10_saturating_offsets eC10).1 rfl (by decide) (by decide)).2 rfl⟩

/-! Lemmas about language-buffer parsing. -/

theorem splitAtNul_append (nm rest : List Int) (h : (0 : Int) ∉ nm) :
    splitAtNul (nm ++ 0 :: rest) = some (nm, rest) := by
  induction nm with
  | nil => simp [splitAtNul]
  | cons b bs ih =>
      have hb : b ≠ 0 := by
        intro hb
        exact h (by simp [hb])
      have hbs : (0 : Int) ∉ bs := fun hx => h (List.mem_cons_of_mem b hx)
      simp [splitAtNul, hb, ih hbs]

theorem parseLanguages_term (rest : List Int) :
    parseLanguages ((0 : Int) :: rest) = some [] := by
  unfold parseLanguages
  simp

theorem parseLanguages_entry (p : Int) (nm rest : List Int) (langs : List Language)
    (hp : p ≠ 0) (hnm : (0 : Int) ∉ nm) (h : parseLanguages rest = some langs) :
    parseLanguages (p :: (nm ++ 0 :: rest)) = some (⟨p, nm⟩ :: langs) := by
  unfold parseLanguages
  rw [if_neg hp]
  split
  · rename_i heq
    rw [splitAtNul_append nm rest hnm] at heq
    cases heq
  · rename_i r heq
    rw [splitAtNul_append nm rest hnm] at heq
    simp only [Option.some.injEq] at heq
    subst heq
    simp [h]

theorem genderOf_default (g : Nat) (h1 : g ≠ 1) (h2 : g ≠ 2) :
    genderOf g = Gender.NonBinary := by
  match g, h1, h2 with
  | 0, _, _ => rfl
  | (n + 3), _, _ => rfl
  | 1, h1, _ => exact absurd rfl h1
  | 2, _, h2 => exact absurd rfl h2

/-- C6: the voice conversion maps a null name or identifier pointer to the
empty string rather than failing, maps gender code 1 to Male, 2 to Female and
anything else to NonBinary, and parses the languages buffer as repeated
(priority byte, NUL-terminated name) entries in order, stopping at a zero
priority byte or a null pointer. -/
theorem C6_voice_conversion (v : espeak_VOICE) (w : Voice)
    (h : Voice.from_espeak_voice v = some w) :
    (v.name = none → w.name = []) ∧
    (v.identifier = none → w.identifier = []) ∧
    (v.gender = 1 → w.gender = Gender.Male) ∧
    (v.gender = 2 → w.gender = Gender.Female) ∧
    (v.gender ≠ 1 → v.gender ≠ 2 → w.gender = Gender.NonBinary) ∧
    (v.languages = none → w.languages = []) ∧
    (∀ buf, v.languages = some buf → parseLanguages buf = some w.languages) ∧
    (∀ rest, parseLanguages ((0 : Int) :: rest) = some []) ∧
    (∀ (p : Int) (nm rest : List Int) (langs : List Language), p ≠ 0 → (0 : Int) ∉ nm →
      parseLanguages rest = some langs →
      parseLanguages (p :: (nm ++ 0 :: rest)) = some (⟨p, nm⟩ :: langs)) := by
  obtain ⟨vname, vid, vage, vgender, vlangs⟩ := v
  cases vlangs with
  | none =>
      simp only [Voice.from_espeak_voice, Option.some.injEq] at h
      subst h
      refine ⟨?_, ?_, ?_, ?_, ?_, fun _ => rfl, ?_,
        parseLanguages_term, parseLanguages_entry⟩
      · intro hn; simp only at hn; simp [hn]
      · intro hn; simp only at hn; simp [hn]
      · intro hg; simp only at hg; simp [genderOf, hg]
      · intro hg; simp only at hg; simp [genderOf, hg]
      · intro hg1 hg2; exact genderOf_default vgender hg1 hg2
      · intro buf hbuf
        exact Option.noConfusion hbuf
  | some buf =>
      simp only [Voice.from_espeak_voice] at h
      cases hp : parseLanguages buf with
      | none =>
          rw [hp] at h
          exact Option.noConfusion h
      | some langs =>
          rw [hp] at h
          simp only [Option.some.injEq] at h
          subst h
          refine ⟨?_, ?_, ?_, ?_, ?_, ?_, ?_,
            parseLanguages_term, parseLanguages_entry⟩
          · intro hn; simp only at hn; simp [hn]
          · intro hn; simp only at hn; simp [hn]
          · intro hg; simp only at hg; simp [genderOf, hg]
          · intro hg; simp only at hg; simp [genderOf, hg]
          · intro hg1 hg2; exact genderOf_default vgender hg1 hg2
          · intro hnone
            exact Option.noConfusion hnone
          · intro buf2 hbuf
            injection hbuf with hbuf
            subst hbuf
            exact hp

/-- C6 (witness): converting the native record `vC6` — name "Fr", null
identifier, gender code 1, languages buffer `[5, "fr-ch", NUL, 8, "fr", NUL,
0]` — yields identifier "", gender Male and the two language entries in
buffer order. -/
theorem C6_witness :
    Voice.from_espeak_voice vC6 = some wC6 ∧
    wC6.identifier = [] ∧
    wC6.gender = Gender.Male ∧
    parseLanguages [5, 102, 114, 45, 99, 104, 0, 8, 102, 114, 0, 0] = some wC6.languages := by
  have h2 : parseLanguages [8, 102, 114, 0, 0] = some [⟨8, [102, 114]⟩] := by
    have := parseLanguages_entry 8 [102, 114] [0] [] (by decide) (by decide)
      (parseLanguages_term [])
    simpa using this
  have hparse : parseLanguages [5, 102, 114, 45, 99, 104, 0, 8, 102, 114, 0, 0] =
      some [⟨5, [102, 114, 45, 99, 104]⟩, ⟨8, [102, 114]⟩] := by
    have := parseLanguages_entry 5 [102, 114, 45, 99, 104] [8, 102, 114, 0, 0]
      [⟨8, [102, 114]⟩] (by decide) (by decide) h2
    simpa using this
  have heval : Voice.from_espeak_voice vC6 = some wC6 := by
    unfold Voice.from_espeak_voice vC6
    simp only [hparse]
    rfl
  have h := C6_voice_conversion vC6 wC6 heval
  exact ⟨heval, h.2.1 rfl, h.2.2.1 rfl, h.2.2.2.2.2.2.1 _ rfl⟩

end EspeakRs
